import Mathlib

/-!
Verification of the AXIS conversational front-end (src/index.tsx).

The development shallowly embeds the response-interpretation and
turn-orchestration pipeline of the source file:

* `parseResponse` (src/index.tsx:78-104), including a faithful model of the
  JavaScript regex scan with the pattern three-backticks, a word-character
  tag, a line feed, a lazy non-empty interior, and a closing three-backtick
  marker, applied left to right and non-overlapping;
* the directive classification inside `handleSubmit` (src/index.tsx:392-413),
  with a model of the ECMAScript `JSON.parse` grammar;
* the error classifier `getApiErrorMessage` (src/index.tsx:43-76);
* the React component state of `App` as an event-step function, covering the
  text-to-speech effect (src/index.tsx:319-334), `handleSubmit`
  (src/index.tsx:376-430), `handleImageGeneration` (src/index.tsx:336-374),
  `handleListen` (src/index.tsx:432-442) and `handleTtsToggle`
  (src/index.tsx:444-450);
* the code sandbox runner `handleRunCode` (src/index.tsx:110-142).
-/

namespace Axis

/-- A word character as the JavaScript regex class backslash-w reads it:
ASCII letters, digits and underscore. -/
def isWordChar (c : Char) : Bool :=
  c.isAlpha || c.isDigit || c = '_'

/-- Whitespace as JavaScript `String.prototype.trim` removes it, restricted to
the ASCII whitespace characters (space, tab, line feed, carriage return,
vertical tab, form feed). -/
def isJsSpace (c : Char) : Bool :=
  c = ' ' || c = '\t' || c = '\n' || c = '\x0d' || c = '\x0b' || c = '\x0c'

/-- Leading and trailing whitespace removed, as `.trim()` does. -/
def trimChars (cs : List Char) : List Char :=
  ((cs.dropWhile isJsSpace).reverse.dropWhile isJsSpace).reverse

/-- The tagged message-part variant of the source: `TextPart`, `CodePart`,
`ImagePart` (src/index.tsx:21-36). -/
inductive MessagePart where
  | text (content : String)
  | code (language : String) (content : String)
  | image (imageUrl : String) (prompt : String)
  deriving DecidableEq, Repr

/-- Whether a part is an image part. -/
def MessagePart.isImage : MessagePart → Bool
  | .image _ _ => true
  | _ => false

/-- Split a character list at the first occurrence of the closing marker
(three consecutive backticks): `some (before, after)` when the marker occurs,
scanning left to right, which is what the lazy quantifier of the source regex
selects. -/
def splitAtClose : List Char → Option (List Char × List Char)
  | [] => none
  | c :: cs =>
    if c = '`' ∧ cs.take 2 = ['`', '`'] then some ([], cs.drop 2)
    else (splitAtClose cs).map fun p => (c :: p.1, p.2)

/-- Find the closing marker of a fence interior.  The interior must hold at
least one character (the regex interior is one-or-more, lazy), so the closing
marker is searched for from the second character on. -/
def findClose : List Char → Option (List Char × List Char)
  | [] => none
  | c :: cs => (splitAtClose cs).map fun p => (c :: p.1, p.2)

/-- Try to match the fence pattern at the very start of the input: an opening
three-backtick marker, a (possibly empty) greedy run of word characters as
the language tag, a line feed, then a lazy non-empty interior up to the next
closing three-backtick marker.  Returns `(tag, interior, rest)`. -/
def tryFence (cs : List Char) : Option (List Char × List Char × List Char) :=
  if cs.take 3 = ['`', '`', '`'] then
    match (cs.drop 3).dropWhile isWordChar with
    | '\n' :: body =>
      (findClose body).map fun p => ((cs.drop 3).takeWhile isWordChar, p.1, p.2)
    | _ => none
  else none

/-- The leftmost fence match in the input, as `regex.exec` finds it: try every
start position from left to right.  Returns `(pre, tag, interior, rest)` where
`pre` is the text before the match. -/
def parseFences : List Char → Option (List Char × List Char × List Char × List Char)
  | [] => none
  | c :: cs =>
    match tryFence (c :: cs) with
    | some (t, i, r) => some ([], t, i, r)
    | none => (parseFences cs).map fun p => (c :: p.1, p.2.1, p.2.2.1, p.2.2.2)

/-- The stored language of a code part: the tag lower-cased, defaulting to
`"plaintext"` when the tag is empty (`match[1].toLowerCase() || "plaintext"`,
src/index.tsx:93). -/
def langOf (tag : List Char) : String :=
  if tag = [] then "plaintext" else ⟨tag.map Char.toLower⟩

/-- The scanning loop of `parseResponse` (src/index.tsx:84-101): emit a text
part for the gap before each fence match, a code part for the match, and a
trailing text part for any remainder.  Fuel bounds the recursion; every fence
match consumes at least eight characters, so `length + 1` fuel never runs
out. -/
def parseLoop : Nat → List Char → List MessagePart
  | 0, _ => []
  | fuel + 1, cs =>
    match parseFences cs with
    | some (pre, t, i, r) =>
      (if pre = [] then [] else [.text ⟨pre⟩]) ++
        .code (langOf t) ⟨trimChars i⟩ :: parseLoop fuel r
    | none => if cs = [] then [] else [.text ⟨cs⟩]

/-- `parseResponse` (src/index.tsx:78-104): scan the input for fenced regions;
if nothing at all was emitted, fall back to a single text part holding the
whole input (src/index.tsx:103). -/
def parseResponse (s : String) : List MessagePart :=
  if parseLoop (s.data.length + 1) s.data = [] then [.text s]
  else parseLoop (s.data.length + 1) s.data

theorem splitAtClose_eq : ∀ {cs i r : List Char}, splitAtClose cs = some (i, r) →
    cs = i ++ '`' :: '`' :: '`' :: r := by
  intro cs
  induction cs with
  | nil => intro i r h; simp [splitAtClose] at h
  | cons c cs ih =>
    intro i r h
    by_cases hc : c = '`' ∧ cs.take 2 = ['`', '`']
    · rw [splitAtClose, if_pos hc] at h
      obtain ⟨h1, h2⟩ := Prod.mk.injEq .. ▸ Option.some.inj h
      rcases cs with _ | ⟨a, _ | ⟨b, cs2⟩⟩ <;> simp at hc
      obtain ⟨hcb, ha, hb⟩ := hc
      subst hcb ha hb
      simp_all
    · rw [splitAtClose, if_neg hc] at h
      obtain ⟨⟨i', r'⟩, hp, he⟩ := Option.map_eq_some'.mp h
      obtain ⟨h1, h2⟩ := Prod.mk.injEq .. ▸ he
      subst h1 h2
      simpa using ih hp

theorem findClose_eq {cs i r : List Char} (h : findClose cs = some (i, r)) :
    cs = i ++ '`' :: '`' :: '`' :: r ∧ i ≠ [] := by
  match cs, h with
  | c :: cs, h =>
    rw [findClose] at h
    obtain ⟨⟨i', r'⟩, hp, he⟩ := Option.map_eq_some'.mp h
    obtain ⟨h1, h2⟩ := Prod.mk.injEq .. ▸ he
    subst h1 h2
    simpa using splitAtClose_eq hp

theorem tryFence_eq {cs t i r : List Char} (h : tryFence cs = some (t, i, r)) :
    cs = '`' :: '`' :: '`' :: (t ++ '\n' :: (i ++ '`' :: '`' :: '`' :: r)) ∧
      t.all isWordChar ∧ i ≠ [] := by
  rw [tryFence] at h
  by_cases h3 : cs.take 3 = ['`', '`', '`']
  · rw [if_pos h3] at h
    split at h
    · rename_i body heq
      obtain ⟨⟨i', r'⟩, hp, he⟩ := Option.map_eq_some'.mp h
      simp only [Prod.mk.injEq] at he
      obtain ⟨rfl, rfl, rfl⟩ := he
      obtain ⟨hbody, hne⟩ := findClose_eq hp
      subst hbody
      refine ⟨?_, ?_, hne⟩
      · have hcs : cs = cs.take 3 ++ cs.drop 3 := (List.take_append_drop 3 cs).symm
        have hsplit : cs.drop 3 =
            (cs.drop 3).takeWhile isWordChar ++ (cs.drop 3).dropWhile isWordChar :=
          (List.takeWhile_append_dropWhile ..).symm
        rw [heq] at hsplit
        rw [hsplit, h3] at hcs
        simpa using hcs
      · exact List.all_eq_true.mpr fun x hx => List.mem_takeWhile_imp hx
    · simp at h
  · rw [if_neg h3] at h
    simp at h

theorem parseFences_eq : ∀ {cs pre t i r : List Char},
    parseFences cs = some (pre, t, i, r) →
    cs = pre ++ '`' :: '`' :: '`' :: (t ++ '\n' :: (i ++ '`' :: '`' :: '`' :: r)) ∧
      t.all isWordChar ∧ i ≠ [] := by
  intro cs
  induction cs with
  | nil => intro pre t i r h; simp [parseFences] at h
  | cons c cs ih =>
    intro pre t i r h
    rw [parseFences] at h
    rcases hf : tryFence (c :: cs) with _ | ⟨⟨t', i', r'⟩⟩ <;> rw [hf] at h
    · simp only [Option.map_eq_some'] at h
      obtain ⟨⟨p1, q1, q2, q3⟩, hp, he⟩ := h
      simp only [Prod.mk.injEq] at he
      obtain ⟨rfl, rfl, rfl, rfl⟩ := he
      obtain ⟨hcs, hw, hne⟩ := ih hp
      exact ⟨by rw [List.cons_append, ← hcs], hw, hne⟩
    · simp only [Option.some.injEq, Prod.mk.injEq] at h
      obtain ⟨rfl, rfl, rfl, rfl⟩ := h
      obtain ⟨hcs, hw, hne⟩ := tryFence_eq hf
      exact ⟨by simpa using hcs, hw, hne⟩

theorem parseFences_rest_lt {cs pre t i r : List Char}
    (h : parseFences cs = some (pre, t, i, r)) : r.length < cs.length := by
  obtain ⟨hcs, -, -⟩ := parseFences_eq h
  subst hcs
  simp [List.length_append]
  omega

theorem parseLoop_fuel : ∀ (fuel : Nat) (cs : List Char), cs.length < fuel →
    parseLoop fuel cs = parseLoop (cs.length + 1) cs := by
  intro fuel
  induction fuel using Nat.strong_induction_on with
  | _ fuel ih =>
    intro cs hlt
    match fuel, hlt with
    | fuel + 1, hlt =>
      rcases hf : parseFences cs with _ | ⟨⟨pre, t, i, r⟩⟩
      · simp [parseLoop, hf]
      · have hr := parseFences_rest_lt hf
        have h1 : parseLoop fuel r = parseLoop (r.length + 1) r :=
          ih fuel (Nat.lt_succ_self fuel) r (by omega)
        have h2 : parseLoop cs.length r = parseLoop (r.length + 1) r :=
          ih cs.length (by omega) r hr
        simp [parseLoop, hf, h1, h2]

/-- The original source segment of one fence match: opening marker, tag, line
feed, interior, closing marker. -/
def fenceText (t i : List Char) : List Char :=
  '`' :: '`' :: '`' :: (t ++ '\n' :: (i ++ ['`', '`', '`']))

/-- A list of message parts reconstructs an input: reading the parts in
order, each text part contributes its content verbatim and each code part
contributes a re-fenced region (opening marker + tag + line feed + interior +
closing marker) whose tag lower-cases (with the empty tag stored as
`"plaintext"`) to the part's language and whose interior trims to the part's
content.  Image parts reconstruct nothing: the parser never emits them. -/
inductive Reconstructs : List MessagePart → List Char → Prop where
  | nil : Reconstructs [] []
  | text {ps cs} (c : List Char) :
      Reconstructs ps cs → Reconstructs (.text ⟨c⟩ :: ps) (c ++ cs)
  | code {ps cs} (t i : List Char) (ht : t.all isWordChar) (hi : i ≠ []) :
      Reconstructs ps cs →
      Reconstructs (.code (langOf t) ⟨trimChars i⟩ :: ps) (fenceText t i ++ cs)

theorem parseLoop_reconstructs_aux : ∀ (n : Nat) (cs : List Char), cs.length = n →
    Reconstructs (parseLoop (cs.length + 1) cs) cs := by
  intro n
  induction n using Nat.strong_induction_on with
  | _ n ih =>
    intro cs hn
    rcases hf : parseFences cs with _ | ⟨⟨pre, t, i, r⟩⟩
    · by_cases hcs : cs = []
      · subst hcs
        simp [parseLoop, parseFences]
        exact .nil
      · simp only [parseLoop, hf, if_neg hcs]
        have := @Reconstructs.text [] [] cs .nil
        simpa using this
    · obtain ⟨hcs, hw, hne⟩ := parseFences_eq hf
      have hr := parseFences_rest_lt hf
      simp only [parseLoop, hf]
      rw [parseLoop_fuel cs.length r (by omega)]
      have hrec : Reconstructs (parseLoop (r.length + 1) r) r :=
        ih r.length (by omega) r rfl
      have hcode := Reconstructs.code t i hw hne hrec
      have hshape : cs = pre ++ (fenceText t i ++ r) := by
        rw [hcs]; simp [fenceText, List.append_assoc]
      by_cases hpre : pre = []
      · subst hpre
        simpa [hshape] using hcode
      · rw [if_neg hpre]
        rw [hshape]
        exact Reconstructs.text pre hcode

theorem parseLoop_reconstructs (cs : List Char) :
    Reconstructs (parseLoop (cs.length + 1) cs) cs :=
  parseLoop_reconstructs_aux cs.length cs rfl

theorem parseLoop_ne_nil {cs : List Char} (h : cs ≠ []) :
    parseLoop (cs.length + 1) cs ≠ [] := by
  rw [parseLoop]
  rcases hf : parseFences cs with _ | ⟨⟨pre, t, i, r⟩⟩
  · simp [h]
  · simp

theorem parseResponse_ne_nil (s : String) : parseResponse s ≠ [] := by
  unfold parseResponse
  by_cases hps : parseLoop (s.data.length + 1) s.data = []
  · rw [if_pos hps]; simp
  · rw [if_neg hps]; exact hps

theorem parseResponse_no_fence {s : String} (hnone : parseFences s.data = none) :
    parseResponse s = [.text s] := by
  unfold parseResponse
  by_cases hps : parseLoop (s.data.length + 1) s.data = []
  · rw [if_pos hps]
  · rw [if_neg hps]
    have hloop : parseLoop (s.data.length + 1) s.data =
        if s.data = [] then [] else [.text ⟨s.data⟩] := by
      simp only [parseLoop, hnone]
    by_cases hcs : s.data = []
    · rw [hloop, if_pos hcs] at hps
      exact absurd rfl hps
    · rw [hloop, if_neg hcs]

/-- C1.  `parseResponse` is total and returns a non-empty list; concatenating
the text parts' contents and the re-fenced code parts, in order, reconstructs
the input up to the trimming of each interior and the lower-casing (with the
`"plaintext"` default for an empty tag) of each language tag; and when no
fenced region is matched anywhere the result is exactly one text part holding
the whole input verbatim, including for the blank input. -/
theorem parseResponse_total_reconstructs (s : String) :
    parseResponse s ≠ [] ∧ Reconstructs (parseResponse s) s.data ∧
      (parseFences s.data = none → parseResponse s = [.text s]) := by
  refine ⟨parseResponse_ne_nil s, ?_, fun hnone => parseResponse_no_fence hnone⟩
  unfold parseResponse
  by_cases hps : parseLoop (s.data.length + 1) s.data = []
  · rw [if_pos hps]
    have := @Reconstructs.text [] [] s.data .nil
    simpa using this
  · rw [if_neg hps]
    exact parseLoop_reconstructs s.data

example : parseResponse "just prose" = [.text "just prose"] := by decide

example :
    parseResponse "Hello ```js\nconsole.log(1)\n``` bye" =
      [.text "Hello ", .code "js" "console.log(1)", .text " bye"] := by decide

example : parseResponse "" = [.text ""] := by decide

example :
    parseResponse "```\n``` x ```\nbody```" =
      [.code "plaintext" "``` x", .text "\nbody```"] := by decide

example : parseResponse "```\n```" = [.text "```\n```"] := by decide

theorem takeWhile_append_all {p : Char → Bool} : ∀ (l : List Char), l.all p = true →
    ∀ (c : Char) (r : List Char), p c = false →
    (l ++ c :: r).takeWhile p = l := by
  intro l
  induction l with
  | nil => intro _ c r hc; simp [List.takeWhile, hc]
  | cons a l ih =>
    intro hall c r hc
    simp only [List.all_cons, Bool.and_eq_true] at hall
    simp [List.takeWhile_cons, hall.1, ih hall.2 c r hc]

theorem dropWhile_append_all {p : Char → Bool} : ∀ (l : List Char), l.all p = true →
    ∀ (c : Char) (r : List Char), p c = false →
    (l ++ c :: r).dropWhile p = c :: r := by
  intro l
  induction l with
  | nil => intro _ c r hc; simp [List.dropWhile, hc]
  | cons a l ih =>
    intro hall c r hc
    simp only [List.all_cons, Bool.and_eq_true] at hall
    simp only [List.cons_append, List.dropWhile_cons, hall.1, if_true]
    exact ih hall.2 c r hc

theorem isWordChar_ne_backtick {c : Char} (hc : isWordChar c = true) : c ≠ '`' := by
  intro heq
  subst heq
  simp [isWordChar] at hc

theorem tryFence_none_of_head {c : Char} (hc : c ≠ '`') (cs : List Char) :
    tryFence (c :: cs) = none := by
  rw [tryFence, if_neg]
  intro h
  rw [show (c :: cs).take 3 = c :: cs.take 2 from rfl] at h
  exact hc (List.head_eq_of_cons_eq h)

theorem parseFences_wordtail_none : ∀ (tag : List Char), tag.all isWordChar = true →
    parseFences (tag ++ '\n' :: '`' :: '`' :: '`' :: []) = none := by
  intro tag
  induction tag with
  | nil => intro _; decide
  | cons t ts ih =>
    intro hall
    simp only [List.all_cons, Bool.and_eq_true] at hall
    rw [List.cons_append, parseFences,
      tryFence_none_of_head (isWordChar_ne_backtick hall.1), ih hall.2]
    rfl

theorem parseFences_emptyFence_none (tag : List Char) (hw : tag.all isWordChar = true) :
    parseFences ('`' :: '`' :: '`' :: (tag ++ '\n' :: '`' :: '`' :: '`' :: [])) = none := by
  have htail := parseFences_wordtail_none tag hw
  have hmatch : tryFence ('`' :: '`' :: '`' :: (tag ++ '\n' :: '`' :: '`' :: '`' :: [])) =
      none := by
    unfold tryFence
    rw [show ('`' :: '`' :: '`' :: (tag ++ '\n' :: '`' :: '`' :: '`' :: [])).take 3 =
        ['`', '`', '`'] from rfl]
    rw [if_pos rfl]
    rw [show ('`' :: '`' :: '`' :: (tag ++ '\n' :: '`' :: '`' :: '`' :: [])).drop 3 =
        tag ++ '\n' :: '`' :: '`' :: '`' :: [] from rfl]
    rw [dropWhile_append_all tag hw '\n' _ (by decide)]
    rfl
  rcases tag with _ | ⟨t, ts⟩
  · decide
  · simp only [List.all_cons, Bool.and_eq_true] at hw
    have hne := isWordChar_ne_backtick hw.1
    have htail := parseFences_wordtail_none ts hw.2
    have ht2 : tryFence ('`' :: '`' :: ((t :: ts) ++ '\n' :: '`' :: '`' :: '`' :: [])) =
        none := by
      rw [tryFence, if_neg]
      intro h
      rw [show ('`' :: '`' :: ((t :: ts) ++ '\n' :: '`' :: '`' :: '`' :: [])).take 3 =
          ['`', '`', t] from rfl] at h
      exact hne (List.head_eq_of_cons_eq (List.tail_eq_of_cons_eq
        (List.tail_eq_of_cons_eq h)))
    have ht3 : tryFence ('`' :: ((t :: ts) ++ '\n' :: '`' :: '`' :: '`' :: [])) =
        none := by
      rw [tryFence, if_neg]
      intro h
      rw [show ('`' :: ((t :: ts) ++ '\n' :: '`' :: '`' :: '`' :: [])).take 3 =
          ['`', t] ++ (ts ++ '\n' :: '`' :: '`' :: '`' :: []).take 1 from rfl] at h
      exact hne (List.head_eq_of_cons_eq (List.tail_eq_of_cons_eq h))
    simp only [List.cons_append] at hmatch ht2 ht3
    simp only [parseFences, List.cons_append, List.append_eq, hmatch, ht2, ht3,
      tryFence_none_of_head hne, htail, Option.map_none']

/-- C10 counterexample.  The input holds an empty-interior fence
(three backticks, line feed, three backticks) as its prefix, yet
`parseResponse` does emit a code part, and the empty fence's marker characters
do not appear verbatim inside a text part: the opening marker becomes the
opening of a larger match and the closing marker is swallowed into that code
part's content. -/
theorem parseResponse_empty_interior_cex :
    List.isPrefixOf "```\n```".data "```\n``` x ```\nbody```".data = true ∧
      parseResponse "```\n``` x ```\nbody```" =
        [.code "plaintext" "``` x", .text "\nbody```"] := by decide

/-- C10 (amended).  An opening marker immediately followed by a closing
marker with an empty interior, as the whole input (for any word-character
language tag), is not matched: the fence pattern requires at least one
interior character, so `parseResponse` emits a single verbatim text part and
no code part.  (With further fence material after it, the empty fence's
markers can instead be swallowed into a larger match.) -/
theorem parseResponse_empty_interior (tag : String) (hw : tag.data.all isWordChar = true) :
    parseResponse ("```" ++ tag ++ "\n```") = [.text ("```" ++ tag ++ "\n```")] := by
  apply parseResponse_no_fence
  have hdata : ("```" ++ tag ++ "\n```").data =
      '`' :: '`' :: '`' :: (tag.data ++ '\n' :: '`' :: '`' :: '`' :: []) := by
    rw [String.data_append, String.data_append]
    show ['`', '`', '`'] ++ tag.data ++ ['\n', '`', '`', '`'] = _
    simp
  rw [hdata]
  exact parseFences_emptyFence_none tag.data hw

/-- C10 witness: the amended statement at the concrete tag `"js"`. -/
theorem parseResponse_empty_interior_witness :
    parseResponse ("```" ++ "js" ++ "\n```") = [.text ("```" ++ "js" ++ "\n```")] :=
  parseResponse_empty_interior "js" (by decide)

/-- C8.  The two concrete examples: a prose-code-prose input parses to
exactly three parts with the interior trimmed and the tag kept, and an input
with no fence markers parses to a single verbatim text part. -/
theorem parseResponse_concrete_examples :
    parseResponse "Hello ```js\nconsole.log(1)\n``` bye" =
      [.text "Hello ", .code "js" "console.log(1)", .text " bye"] ∧
    parseResponse "just prose" = [.text "just prose"] := by decide

/-- A JSON value as `JSON.parse` produces it.  Numbers are kept as their raw
lexeme: no claim inspects numeric values, and this avoids modelling binary
floating point. -/
inductive Json where
  | null
  | bool (b : Bool)
  | num (raw : String)
  | str (s : String)
  | arr (elems : List Json)
  | obj (fields : List (String × Json))

/-- Whitespace the JSON grammar allows between tokens. -/
def isJsonWs (c : Char) : Bool :=
  c = ' ' || c = '\t' || c = '\n' || c = '\x0d'

/-- The value of a hexadecimal digit. -/
def hexVal (c : Char) : Option Nat :=
  if c.isDigit then some (c.toNat - 48)
  else if 'a' ≤ c ∧ c ≤ 'f' then some (c.toNat - 87)
  else if 'A' ≤ c ∧ c ≤ 'F' then some (c.toNat - 55)
  else none

/-- The character a single-letter JSON escape denotes. -/
def escChar (c : Char) : Option Char :=
  if c = '"' then some '"'
  else if c = '\\' then some '\\'
  else if c = '/' then some '/'
  else if c = 'b' then some '\x08'
  else if c = 'f' then some '\x0c'
  else if c = 'n' then some '\n'
  else if c = 'r' then some '\x0d'
  else if c = 't' then some '\t'
  else none

/-- Parse the characters of a JSON string after its opening quote, returning
the decoded content and the rest after the closing quote.  Unescaped control
characters are rejected, as the JSON grammar demands.  A `\u` escape becomes
the character of its code point via `Char.ofNat` (a lone surrogate, not
representable as a Lean character, degrades to `Char.ofNat`'s default); no
claim depends on surrogate handling. -/
def parseJsonStringChars : Nat → List Char → Option (List Char × List Char)
  | 0, _ => none
  | _ + 1, [] => none
  | fuel + 1, c :: cs =>
    if c = '"' then some ([], cs)
    else if c = '\\' then
      match cs with
      | [] => none
      | e :: cs2 =>
        if e = 'u' then
          match cs2 with
          | a :: b :: d :: f :: cs3 =>
            match hexVal a, hexVal b, hexVal d, hexVal f with
            | some ha, some hb, some hd, some hf =>
              (parseJsonStringChars fuel cs3).map fun p =>
                (Char.ofNat (((ha * 16 + hb) * 16 + hd) * 16 + hf) :: p.1, p.2)
            | _, _, _, _ => none
          | _ => none
        else
          match escChar e with
          | some ec => (parseJsonStringChars fuel cs2).map fun p => (ec :: p.1, p.2)
          | none => none
    else if c.toNat < 32 then none
    else (parseJsonStringChars fuel cs).map fun p => (c :: p.1, p.2)

/-- Parse a JSON number as the longest prefix the number grammar generates,
keeping the raw lexeme.  The integer part follows the grammar's
`0 | [1-9] digits` rule: after a leading `0` the integer part ends at once,
so in `01` only the `0` is consumed.  The lexer is otherwise lenient (a bare
integer before a dot without fraction digits is accepted as the shorter
number), which is extensionally equivalent to the strict grammar at
`jsonParse` level: a digit, a dot or an exponent letter may never legally
follow a completed number anywhere in a JSON document, so the leftover
character makes the enclosing parse fail exactly when the strict grammar
would have rejected the lexeme — in particular `01` and
`{"image_prompt": "x", "n": 01}` are rejected, as `JSON.parse` rejects
them. -/
def parseJsonNumber (cs : List Char) : Option (Json × List Char) :=
  let (sign, cs1) := if cs.take 1 = ['-'] then (['-'], cs.drop 1) else ([], cs)
  let intPart :=
    if cs1.take 1 = ['0'] then ['0'] else cs1.takeWhile Char.isDigit
  let cs2 :=
    if cs1.take 1 = ['0'] then cs1.drop 1 else cs1.dropWhile Char.isDigit
  if intPart = [] then none
  else
    let (frac, cs3) :=
      if cs2.take 1 = ['.'] ∧ (cs2.drop 1).takeWhile Char.isDigit ≠ [] then
        ('.' :: (cs2.drop 1).takeWhile Char.isDigit, (cs2.drop 1).dropWhile Char.isDigit)
      else ([], cs2)
    let (expPart, cs4) :=
      match cs3 with
      | e :: rest =>
        if e = 'e' ∨ e = 'E' then
          let (es, rest2) :=
            if rest.take 1 = ['+'] ∨ rest.take 1 = ['-'] then (rest.take 1, rest.drop 1)
            else ([], rest)
          let ds := rest2.takeWhile Char.isDigit
          if ds = [] then ([], cs3)
          else (e :: (es ++ ds), rest2.dropWhile Char.isDigit)
        else ([], cs3)
      | [] => ([], cs3)
    some (.num ⟨sign ++ intPart ++ frac ++ expPart⟩, cs4)

mutual

/-- Parse one JSON value after skipping leading whitespace, per the
`JSON.parse` grammar: the literals, strings, arrays, objects and numbers. -/
def parseJsonValue : Nat → List Char → Option (Json × List Char)
  | 0, _ => none
  | fuel + 1, cs =>
    let cs0 := cs.dropWhile isJsonWs
    if cs0.take 4 = ['n', 'u', 'l', 'l'] then some (.null, cs0.drop 4)
    else if cs0.take 4 = ['t', 'r', 'u', 'e'] then some (.bool true, cs0.drop 4)
    else if cs0.take 5 = ['f', 'a', 'l', 's', 'e'] then some (.bool false, cs0.drop 5)
    else if cs0.take 1 = ['"'] then
      (parseJsonStringChars ((cs0.drop 1).length + 1) (cs0.drop 1)).map fun p =>
        (.str ⟨p.1⟩, p.2)
    else if cs0.take 1 = ['['] then
      if ((cs0.drop 1).dropWhile isJsonWs).take 1 = [']'] then
        some (.arr [], ((cs0.drop 1).dropWhile isJsonWs).drop 1)
      else (parseJsonElems fuel (cs0.drop 1)).map fun p => (.arr p.1, p.2)
    else if cs0.take 1 = ['{'] then
      if ((cs0.drop 1).dropWhile isJsonWs).take 1 = ['}'] then
        some (.obj [], ((cs0.drop 1).dropWhile isJsonWs).drop 1)
      else (parseJsonMembers fuel (cs0.drop 1)).map fun p => (.obj p.1, p.2)
    else parseJsonNumber cs0

/-- Parse the non-empty element list of a JSON array up to and including the
closing bracket. -/
def parseJsonElems : Nat → List Char → Option (List Json × List Char)
  | 0, _ => none
  | fuel + 1, cs =>
    match parseJsonValue fuel cs with
    | none => none
    | some (v, rest) =>
      if (rest.dropWhile isJsonWs).take 1 = [','] then
        (parseJsonElems fuel ((rest.dropWhile isJsonWs).drop 1)).map fun p =>
          (v :: p.1, p.2)
      else if (rest.dropWhile isJsonWs).take 1 = [']'] then
        some ([v], (rest.dropWhile isJsonWs).drop 1)
      else none

/-- Parse the non-empty member list of a JSON object up to and including the
closing brace. -/
def parseJsonMembers : Nat → List Char → Option (List (String × Json) × List Char)
  | 0, _ => none
  | fuel + 1, cs =>
    let cs0 := cs.dropWhile isJsonWs
    if cs0.take 1 = ['"'] then
      match parseJsonStringChars ((cs0.drop 1).length + 1) (cs0.drop 1) with
      | none => none
      | some (key, rest) =>
        if (rest.dropWhile isJsonWs).take 1 = [':'] then
          match parseJsonValue fuel ((rest.dropWhile isJsonWs).drop 1) with
          | none => none
          | some (v, rest2) =>
            if (rest2.dropWhile isJsonWs).take 1 = [','] then
              (parseJsonMembers fuel ((rest2.dropWhile isJsonWs).drop 1)).map fun p =>
                ((⟨key⟩, v) :: p.1, p.2)
            else if (rest2.dropWhile isJsonWs).take 1 = ['}'] then
              some ([(⟨key⟩, v)], (rest2.dropWhile isJsonWs).drop 1)
            else none
        else none
    else none

end

/-- `JSON.parse` on a whole string: one value, with only whitespace allowed
after it.  The fuel is generous: every two levels of recursion consume at
least one character. -/
def jsonParse (s : String) : Option Json :=
  match parseJsonValue (2 * s.data.length + 2) s.data with
  | none => none
  | some (v, rest) => if rest.dropWhile isJsonWs = [] then some v else none

example : jsonParse "\x7b\"image_prompt\": \"a red fox\"\x7d" =
    some (.obj [("image_prompt", .str "a red fox")]) := rfl

example : jsonParse "here is some json: \x7b\"image_prompt\": \"x\"\x7d" = none := rfl

example : jsonParse " [1, true, null, \"a\\n\"] " =
    some (.arr [.num "1", .bool true, .null, .str "a\n"]) := rfl

example : jsonParse "\x7b\"a\": 1, \"a\": 2\x7d" =
    some (.obj [("a", .num "1"), ("a", .num "2")]) := rfl

example : jsonParse "0" = some (.num "0") := rfl

example : jsonParse "-0.5e+2" = some (.num "-0.5e+2") := rfl

example : jsonParse "01" = none := rfl

example : jsonParse "\x7b\"image_prompt\": \"x\", \"n\": 01\x7d" = none := rfl

example : jsonParse "\x7b\"image_prompt\": \"x\", \"n\": 10\x7d" =
    some (.obj [("image_prompt", .str "x"), ("n", .num "10")]) := rfl

/-- The outcome of the directive check in `handleSubmit`
(src/index.tsx:395-407). -/
inductive Directive where
  | imageDirective (prompt : String)
  | notADirective
  deriving DecidableEq, Repr

/-- Property access on a parsed JSON object: `JSON.parse` assigns duplicate
keys in order, so the last binding wins. -/
def lookupField (fields : List (String × Json)) (k : String) : Option Json :=
  (fields.reverse.find? fun p => p.1 == k).map fun p => p.2

/-- The directive classification of `handleSubmit` (src/index.tsx:394-407):
trim the raw reply, attempt `JSON.parse` on the whole of it, and require a
field `image_prompt` that is truthy (for a string: non-empty) and of string
type.  Every failure — parse error, non-object value (property access on
`null` throws, and the `try` swallows it), missing field, non-string field,
empty-string field — classifies as not-a-directive. -/
def classifyReply (raw : String) : Directive :=
  match jsonParse ⟨trimChars raw.data⟩ with
  | some (.obj fields) =>
    match lookupField fields "image_prompt" with
    | some (.str p) => if p = "" then .notADirective else .imageDirective p
    | _ => .notADirective
  | _ => .notADirective

/-- What `handleSubmit` does with a reply once obtained: the image-generation
branch when the directive matches (`isJson = true`), otherwise
`parseResponse` on the trimmed reply text (src/index.tsx:394-413). -/
inductive ReplyAction where
  | genImage (prompt : String)
  | message (parts : List MessagePart)
  deriving DecidableEq, Repr

/-- The reply routing of `handleSubmit`: a directive reply goes to image
generation and is never passed to `parseResponse`. -/
def routeReply (raw : String) : ReplyAction :=
  match classifyReply raw with
  | .imageDirective p => .genImage p
  | .notADirective => .message (parseResponse ⟨trimChars raw.data⟩)

/-- C2 counterexample.  The input is, in its entirety, a JSON object whose
`image_prompt` field is a string (the empty string), so the claim's
if-and-only-if demands `ImageDirective("")`; but the source checks truthiness
before the type (`potentialJson.image_prompt && typeof ... === "string"`),
and the empty string is falsy, so the code classifies it as not a
directive. -/
theorem classifyReply_empty_string_cex :
    jsonParse ⟨trimChars "\x7b\"image_prompt\": \"\"\x7d".data⟩ =
      some (.obj [("image_prompt", .str "")]) ∧
    classifyReply "\x7b\"image_prompt\": \"\"\x7d" = .notADirective :=
  ⟨rfl, rfl⟩

/-- C2 (amended).  A raw reply classifies as `ImageDirective(prompt)` if and
only if the entire trimmed reply parses as a JSON object holding a field
`image_prompt` whose value is a non-empty string; everything else — parse
failures included, which never escape since the classifier is a total
function — classifies as not a directive; a directive reply goes to image
generation and is never passed to `parseResponse`; the two concrete spec
examples behave as stated; and a document `JSON.parse` rejects for its
number syntax (a leading-zero numeral) is not a directive even though it
mentions `image_prompt`, and is routed to `parseResponse`. -/
theorem classifyReply_characterization (raw p : String) :
    (classifyReply raw = .imageDirective p ↔
      ∃ fields, jsonParse ⟨trimChars raw.data⟩ = some (.obj fields) ∧
        lookupField fields "image_prompt" = some (.str p) ∧ p ≠ "") ∧
    (classifyReply raw = .imageDirective p → routeReply raw = .genImage p) ∧
    classifyReply "\x7b\"image_prompt\": \"a red fox\"\x7d" =
      .imageDirective "a red fox" ∧
    classifyReply "here is some json: \x7b\"image_prompt\": \"x\"\x7d" =
      .notADirective ∧
    classifyReply "\x7b\"image_prompt\": \"x\", \"n\": 01\x7d" = .notADirective ∧
    routeReply "\x7b\"image_prompt\": \"x\", \"n\": 01\x7d" =
      .message (parseResponse "\x7b\"image_prompt\": \"x\", \"n\": 01\x7d") := by
  refine ⟨⟨?_, ?_⟩, ?_, by decide, by decide, by decide, by decide⟩
  · intro h
    unfold classifyReply at h
    split at h
    · rename_i fields hj
      split at h
      · rename_i q hl
        split at h
        · exact absurd h (by simp)
        · rename_i hq
          injection h with hpq
          subst hpq
          exact ⟨fields, hj, hl, hq⟩
      · exact absurd h (by simp)
    · exact absurd h (by simp)
  · rintro ⟨fields, hj, hl, hp⟩
    unfold classifyReply
    simp only [hj, hl]
    rw [if_neg hp]
  · intro h
    unfold routeReply
    rw [h]

/-- C2 witness: the amended characterization applied at the red-fox example,
showing the routing never reaches `parseResponse` for it. -/
theorem classifyReply_characterization_witness :
    routeReply "\x7b\"image_prompt\": \"a red fox\"\x7d" = .genImage "a red fox" :=
  (classifyReply_characterization "\x7b\"image_prompt\": \"a red fox\"\x7d"
    "a red fox").2.1 (by decide)

/-- The user-facing failure taxonomy of the spec (§7), one value per branch
of `getApiErrorMessage` (src/index.tsx:43-76). -/
inductive ErrorKind where
  | offline
  | authError
  | quotaError
  | serviceError
  | networkError
  | unknownError (message : String)
  deriving DecidableEq, Repr

/-- Substring containment, as `String.prototype.includes` tests it. -/
def containsSub (s pat : List Char) : Bool :=
  s.tails.any fun t => pat.isPrefixOf t

/-- `toLowerCase` restricted to ASCII, which covers every predicate the
classifier uses. -/
def lowerStr (s : String) : String :=
  ⟨s.data.map Char.toLower⟩

/-- `message.includes(pat)` on strings. -/
def hasSub (s pat : String) : Bool :=
  containsSub s.data pat.data

/-- The credential/permission phrasing of the first branch
(src/index.tsx:50-53). -/
def authPhrase (m : String) : Bool :=
  hasSub (lowerStr m) "api key not valid" || hasSub (lowerStr m) "permission denied"

/-- The quota phrasing (src/index.tsx:57). -/
def quotaPhrase (m : String) : Bool :=
  hasSub (lowerStr m) "quota"

/-- The server-error phrasing (src/index.tsx:61-65): the literal digit
strings `"500"` and `"503"`, and the literal phrase `"server error"` — not
every 5xx status. -/
def serverPhrase (m : String) : Bool :=
  hasSub (lowerStr m) "500" || hasSub (lowerStr m) "503" ||
    hasSub (lowerStr m) "server error"

/-- The network/fetch phrasing (src/index.tsx:69). -/
def netPhrase (m : String) : Bool :=
  hasSub (lowerStr m) "fetch" || hasSub (lowerStr m) "network"

/-- The branch structure of `getApiErrorMessage` (src/index.tsx:43-76) as a
classifier into the taxonomy: connectivity first, then the case-insensitive
substring checks in source order, else the fallback carrying the original
message. -/
def classifyError (message : String) (online : Bool) : ErrorKind :=
  if !online then .offline
  else if authPhrase message then .authError
  else if quotaPhrase message then .quotaError
  else if serverPhrase message then .serviceError
  else if netPhrase message then .networkError
  else .unknownError message

/-- The exact string `getApiErrorMessage` returns for each branch
(src/index.tsx:45-75). -/
def errorKindText : ErrorKind → String
  | .offline => "It seems you're offline. Please check your internet connection."
  | .authError =>
    "There seems to be an issue with the API key. Please verify it is correct and has the required permissions."
  | .quotaError => "The API quota has been exceeded. Please check your usage limits."
  | .serviceError =>
    "The AI service is currently experiencing issues. Please try again in a few moments."
  | .networkError =>
    "A network error occurred while trying to reach the AI service. Please check your connection."
  | .unknownError m =>
    "An unexpected error occurred. Details: " ++
      (if m = "" then "No additional information available." else m)

/-- `getApiErrorMessage` (src/index.tsx:43-76): classify, then render the
branch's message string. -/
def getApiErrorMessage (message : String) (online : Bool) : String :=
  errorKindText (classifyError message online)

/-- C3 counterexample.  The message carries the 5xx status 502, so the claim
demands `ServiceError`; but the source only tests for the literal substrings
`"500"`, `"503"` and `"server error"`, and none of the predicates matches, so
the code falls through to `UnknownError`. -/
theorem classifyError_5xx_cex :
    hasSub (lowerStr "Request failed with status 502 Bad Gateway") "502" = true ∧
    classifyError "Request failed with status 502 Bad Gateway" true ≠ .serviceError ∧
    classifyError "Request failed with status 502 Bad Gateway" true =
      .unknownError "Request failed with status 502 Bad Gateway" := by decide

/-- C3 (amended).  The classifier is total and deterministic (it is a
function); offline short-circuits every message to `Offline`;
`classify("API key not valid", online=true) = AuthError`; and otherwise the
case-insensitive substring predicates are evaluated in the fixed order
auth → quota → server (the literals `"500"`, `"503"`, `"server error"` — not
every 5xx status) → network, defaulting to `UnknownError` carrying the
original message. -/
theorem classifyError_priority (m : String) :
    classifyError m false = .offline ∧
    classifyError "API key not valid" true = .authError ∧
    (authPhrase m = true → classifyError m true = .authError) ∧
    (authPhrase m = false → quotaPhrase m = true →
      classifyError m true = .quotaError) ∧
    (authPhrase m = false → quotaPhrase m = false → serverPhrase m = true →
      classifyError m true = .serviceError) ∧
    (authPhrase m = false → quotaPhrase m = false → serverPhrase m = false →
      netPhrase m = true → classifyError m true = .networkError) ∧
    (authPhrase m = false → quotaPhrase m = false → serverPhrase m = false →
      netPhrase m = false → classifyError m true = .unknownError m) := by
  refine ⟨rfl, by decide, fun h1 => ?_, fun h1 h2 => ?_, fun h1 h2 h3 => ?_,
    fun h1 h2 h3 h4 => ?_, fun h1 h2 h3 h4 => ?_⟩ <;>
    simp [classifyError, h1]
  · simp [h2]
  · simp [h2, h3]
  · simp [h2, h3, h4]
  · simp [h2, h3, h4]

/-- A message's role (src/index.tsx:38-41). -/
inductive Role where
  | user
  | ai
  deriving DecidableEq, Repr

/-- A conversation-log entry (src/index.tsx:38-41). -/
structure Message where
  role : Role
  parts : List MessagePart
  deriving DecidableEq, Repr

/-- The component state of `App` (src/index.tsx:228-239).  The platform
speech features are modelled as supported; the synthesizer is modelled by its
utterance queue: `speechSynthesis.speak` appends (it does not pre-empt),
`speechSynthesis.cancel` clears, and the head is the utterance in progress. -/
structure AppState where
  messages : List Message
  input : String
  isLoading : Bool
  hasChat : Bool
  isListening : Bool
  isTtsEnabled : Bool
  synthQueue : List String
  deriving DecidableEq, Repr

/-- The text the TTS effect assembles from a message (src/index.tsx:324-327):
the contents of the text parts whose content is non-blank
(`part.content.trim()` is truthy), joined by single spaces. -/
def ttsText (m : Message) : String :=
  String.intercalate " " (m.parts.filterMap fun p =>
    match p with
    | .text c => if trimChars c.data = [] then none else some c
    | _ => none)

/-- The utterance queue after the TTS effect (src/index.tsx:319-334) runs:
when enabled and the last log entry is an assistant message with non-blank
text, its text is enqueued; the effect itself cancels nothing. -/
def ttsEffectQueue (messages : List Message) (enabled : Bool) (queue : List String) :
    List String :=
  if !enabled then queue
  else
    match messages.getLast? with
    | none => queue
    | some m =>
      if m.role = .ai then
        if ttsText m = "" then queue else queue ++ [ttsText m]
      else queue

/-- Run the TTS effect on the current state; it touches only the synthesizer
queue.  It fires whenever one of its dependencies — the message list or the
enabled flag — changes (src/index.tsx:334). -/
def runTtsEffect (s : AppState) : AppState :=
  { s with synthQueue := ttsEffectQueue s.messages s.isTtsEnabled s.synthQueue }

/-- The outcome of the image-generation call (src/index.tsx:340-353): base64
bytes, or a failure whose message feeds the classifier at the current
connectivity.  A response without bytes throws "No image data received."
inside the same `try`, so it is a failure like any other here. -/
inductive ImageResult where
  | ok (base64 : String)
  | err (msg : String) (online : Bool)
  deriving DecidableEq, Repr

/-- The outcome of the awaited chat turn in `handleSubmit`: the raw reply
text (with the image outcome consulted only on the directive path), or a
transport failure. -/
inductive TurnOutcome where
  | reply (text : String) (img : ImageResult)
  | failure (msg : String) (online : Bool)
  deriving DecidableEq, Repr

/-- The session events the component handles. -/
inductive Event where
  | setInput (text : String)
  | submit
  | complete (o : TurnOutcome)
  | toggleTts
  | toggleListen
  | speechEnd
  deriving DecidableEq, Repr

/-- `handleSubmit` up to its await (src/index.tsx:376-391): the guard rejects
a blank draft, an in-flight request or a missing session handle; otherwise
stop capture, cancel speech, append the user message, clear the draft and set
loading.  The effect then runs on the messages change; the appended message
has role user, so nothing is spoken. -/
def submitStep (s : AppState) : AppState :=
  if trimChars s.input.data = [] ∨ s.isLoading = true ∨ s.hasChat = false then s
  else
    runTtsEffect { s with
      messages := s.messages ++ [⟨.user, [.text s.input]⟩],
      input := "",
      isLoading := true,
      isListening := false,
      synthQueue := [] }

/-- The assistant message the completed turn appends
(src/index.tsx:392-427): for a directive reply, the single-image message on
success or the image apology on failure; for an ordinary reply, the parsed
parts of the trimmed text; for a transport failure, the general apology. -/
def replyMessage (o : TurnOutcome) : Message :=
  match o with
  | .failure msg online =>
    ⟨.ai, [.text ("Sorry, something went wrong. " ++ getApiErrorMessage msg online)]⟩
  | .reply text img =>
    match classifyReply text with
    | .imageDirective p =>
      match img with
      | .ok b => ⟨.ai, [.image ("data:image/jpeg;base64," ++ b) p]⟩
      | .err msg online =>
        ⟨.ai,
          [.text ("Sorry, I couldn't create the image. " ++ getApiErrorMessage msg online)]⟩
    | .notADirective => ⟨.ai, parseResponse ⟨trimChars text.data⟩⟩

/-- Completion of the in-flight turn: append the assistant message (the
effect runs on the change), then clear the loading flag.  A completion with
no request in flight cannot occur under the one-in-flight policy and is a
no-op. -/
def completeStep (s : AppState) (o : TurnOutcome) : AppState :=
  if s.isLoading = false then s
  else
    { runTtsEffect { s with messages := s.messages ++ [replyMessage o] } with
        isLoading := false }

/-- `handleTtsToggle` (src/index.tsx:444-450): cancel in-flight speech when
currently enabled, flip the flag; the effect re-runs because its `enabled`
dependency changed. -/
def toggleTtsStep (s : AppState) : AppState :=
  runTtsEffect { s with
    isTtsEnabled := !s.isTtsEnabled,
    synthQueue := if s.isTtsEnabled then [] else s.synthQueue }

/-- `handleListen` (src/index.tsx:432-442): always cancel speech; stop when
listening (the platform echoes `onend`, clearing the flag); otherwise clear
the draft and begin capture.  No effect dependency changes. -/
def toggleListenStep (s : AppState) : AppState :=
  if s.isListening then { s with synthQueue := [], isListening := false }
  else { s with synthQueue := [], input := "", isListening := true }

/-- One step of the session. -/
def step (s : AppState) : Event → AppState
  | .setInput text => { s with input := text }
  | .submit => submitStep s
  | .complete o => completeStep s o
  | .toggleTts => toggleTtsStep s
  | .toggleListen => toggleListenStep s
  | .speechEnd => { s with isListening := false }

/-- The startup state (src/index.tsx:228-239, 250-291): empty log and draft,
nothing in flight; with the API key missing, a pre-seeded configuration-error
message and no session handle. -/
def initState (hasChat : Bool) : AppState :=
  { messages :=
      if hasChat then []
      else
        [⟨.ai,
          [.text "Configuration Error: The API key is missing. Please ensure it is set up correctly in your environment."]⟩],
    input := "",
    isLoading := false,
    hasChat := hasChat,
    isListening := false,
    isTtsEnabled := false,
    synthQueue := [] }

/-- The states a session can reach from startup. -/
inductive Reachable : AppState → Prop where
  | init (hasChat : Bool) : Reachable (initState hasChat)
  | step {s : AppState} (e : Event) : Reachable s → Reachable (step s e)

/-- While a request is in flight the synthesizer queue is empty (the submit
cancelled it and nothing can speak before the reply lands: the last log entry
is the just-appended user message, which the effect skips). -/
theorem loading_invariant {s : AppState} (h : Reachable s) :
    s.isLoading = true → s.synthQueue = [] ∧
      ∃ m, s.messages.getLast? = some m ∧ m.role = .user := by
  induction h with
  | init hasChat =>
    intro hl
    cases hasChat <;> simp [initState] at hl
  | step e hr ih =>
    rename_i s
    intro hl
    cases e with
    | setInput t => exact ih hl
    | speechEnd => exact ih hl
    | submit =>
      simp only [step, submitStep] at hl ⊢
      by_cases hg : trimChars s.input.data = [] ∨ s.isLoading = true ∨ s.hasChat = false
      · rw [if_pos hg] at hl ⊢
        exact ih hl
      · rw [if_neg hg] at hl ⊢
        refine ⟨?_, ⟨.user, [.text s.input]⟩, ?_, rfl⟩
        · cases hen : s.isTtsEnabled <;>
            simp [runTtsEffect, ttsEffectQueue, hen]
        · simp [runTtsEffect]
    | complete o =>
      simp only [step, completeStep] at hl
      by_cases hld : s.isLoading = false
      · rw [if_pos hld] at hl
        rw [hl] at hld
        exact absurd hld (by simp)
      · rw [if_neg hld] at hl
        simp at hl
    | toggleTts =>
      obtain ⟨hq, m, hm, hrole⟩ := ih hl
      refine ⟨?_, m, hm, hrole⟩
      simp only [step, toggleTtsStep, runTtsEffect]
      cases hen : s.isTtsEnabled <;>
        simp [ttsEffectQueue, hen, hq, hm, hrole]
    | toggleListen =>
      simp only [step, toggleListenStep] at hl ⊢
      by_cases hlst : s.isListening = true
      · rw [if_pos hlst] at hl ⊢
        exact ⟨rfl, (ih hl).2⟩
      · rw [if_neg hlst] at hl ⊢
        exact ⟨rfl, (ih hl).2⟩

/-- Every branch of the completed turn appends an assistant message. -/
theorem replyMessage_role (o : TurnOutcome) : (replyMessage o).role = .ai := by
  unfold replyMessage
  split
  · rfl
  · split
    · split <;> rfl
    · rfl

/-- C4 (amended).  When a turn completes while speech output is enabled, the
appended message is an assistant message; the controller speaks the
concatenation of its non-blank text parts joined by single spaces exactly
when that is non-blank (code, image and whitespace-only text parts
contribute nothing); and no utterance is in progress at that moment — the
submit already cancelled any — so utterances never overlap.  The effect
itself performs no cancellation. -/
theorem tts_speaks_appended_text {s : AppState} (h : Reachable s) (o : TurnOutcome)
    (hl : s.isLoading = true) (he : s.isTtsEnabled = true) :
    s.synthQueue = [] ∧
    (step s (.complete o)).messages = s.messages ++ [replyMessage o] ∧
    (replyMessage o).role = .ai ∧
    (step s (.complete o)).synthQueue =
      (if ttsText (replyMessage o) = "" then [] else [ttsText (replyMessage o)]) := by
  obtain ⟨hq, m, hm, hrole⟩ := loading_invariant h hl
  have hnl : ¬s.isLoading = false := by rw [hl]; simp
  refine ⟨hq, ?_, replyMessage_role o, ?_⟩
  · simp only [step, completeStep, if_neg hnl, runTtsEffect]
  · simp only [step, completeStep, if_neg hnl, runTtsEffect]
    simp [ttsEffectQueue, he, replyMessage_role o, hq]

/-- C4 witness: a concrete session — submit "hi" with speech enabled, the
turn completes with the plain reply "hello" — speaks exactly "hello", with
the queue empty beforehand. -/
theorem tts_speaks_appended_text_witness :
    (step (step (step (step (initState true) (.setInput "hi")) .toggleTts) .submit)
        (.complete (.reply "hello" (.err "x" true)))).synthQueue = ["hello"] := by
  have h := tts_speaks_appended_text
    (Reachable.step .submit (Reachable.step .toggleTts
      (Reachable.step (.setInput "hi") (Reachable.init true))))
    (.reply "hello" (.err "x" true)) (by decide) (by decide)
  rw [h.2.2.2]
  decide

/-- Modelled from the claim's wording for comparison: the concatenation of
the content of ALL text parts of the message — blank ones included —
separated by single spaces. -/
def ttsTextClaim (m : Message) : String :=
  String.intercalate " " (m.parts.filterMap fun p =>
    match p with
    | .text c => some c
    | _ => none)

/-- C4 counterexample.  A reply with a whitespace-only text part between two
fences: the claim's text (all text parts joined) is `"x   y"`, but the code
filters blank text parts first and speaks `"x y"`. -/
theorem tts_blank_parts_cex :
    (step (step (step (step (initState true) (.setInput "q")) .toggleTts) .submit)
        (.complete (.reply "x```j\na``` ```k\nb```y" (.err "e" true)))).synthQueue =
      ["x y"] ∧
    ttsTextClaim (replyMessage (.reply "x```j\na``` ```k\nb```y" (.err "e" true))) =
      "x   y" ∧
    ("x y" : String) ≠ "x   y" := by decide

/-- C5 counterexample.  A session with speech disabled receives the reply
"hello"; afterwards toggling speech on re-runs the effect (the enabled flag
is one of its dependencies) and speaks the already-present last assistant
message: the queue goes from empty to `["hello"]` while the toggle appends no
message. -/
theorem tts_toggle_retroactive_cex :
    (step (step (step (initState true) (.setInput "hi")) .submit)
        (.complete (.reply "hello" (.err "x" true)))).synthQueue = [] ∧
    (step (step (step (step (initState true) (.setInput "hi")) .submit)
        (.complete (.reply "hello" (.err "x" true)))) .toggleTts).synthQueue =
      ["hello"] ∧
    (step (step (step (step (initState true) (.setInput "hi")) .submit)
        (.complete (.reply "hello" (.err "x" true)))) .toggleTts).messages =
      (step (step (step (initState true) (.setInput "hi")) .submit)
        (.complete (.reply "hello" (.err "x" true)))).messages := by decide

/-- C5 (amended).  Toggling speech output from off to on appends nothing and
triggers speech for at most the most recent log entry: exactly when that
entry is an assistant message with non-blank text, its text is enqueued;
messages before the last are never spoken by the toggle. -/
theorem tts_toggle_on {s : AppState} (hoff : s.isTtsEnabled = false) :
    (step s .toggleTts).messages = s.messages ∧
    (step s .toggleTts).synthQueue =
      s.synthQueue ++
        (match s.messages.getLast? with
         | some m => if m.role = .ai ∧ ttsText m ≠ "" then [ttsText m] else []
         | none => []) := by
  refine ⟨rfl, ?_⟩
  simp only [step, toggleTtsStep, runTtsEffect, hoff]
  rcases hm : s.messages.getLast? with _ | m
  · simp [ttsEffectQueue, hm]
  · by_cases hr : m.role = .ai
    · by_cases ht : ttsText m = ""
      · simp [ttsEffectQueue, hm, hr, ht]
      · simp [ttsEffectQueue, hm, hr, ht]
    · simp [ttsEffectQueue, hm, hr]

/-- C5 witness: the amended statement at a concrete state whose last entry is
an assistant message saying "hi". -/
theorem tts_toggle_on_witness :
    (step
        { messages := [⟨.ai, [.text "hi"]⟩], input := "", isLoading := false,
          hasChat := true, isListening := false, isTtsEnabled := false,
          synthQueue := [] } .toggleTts).synthQueue = ["hi"] := by
  have h := @tts_toggle_on
    { messages := [⟨.ai, [.text "hi"]⟩], input := "", isLoading := false,
      hasChat := true, isListening := false, isTtsEnabled := false,
      synthQueue := [] } rfl
  rw [h.2]
  decide

/-- C6.  A submit while a request is in flight, with a blank draft, or with
no session handle is a complete no-op: the state — conversation log, phase
and draft included — is unchanged. -/
theorem submit_rejected {s : AppState}
    (h : trimChars s.input.data = [] ∨ s.isLoading = true ∨ s.hasChat = false) :
    step s .submit = s := by
  simp only [step, submitStep]
  rw [if_pos h]

/-- C6 witness: a concrete in-flight state rejects the submit. -/
theorem submit_rejected_witness :
    step
        { messages := [], input := "x", isLoading := true, hasChat := true,
          isListening := false, isTtsEnabled := false, synthQueue := [] } .submit =
      { messages := [], input := "x", isLoading := true, hasChat := true,
        isListening := false, isTtsEnabled := false, synthQueue := [] } :=
  submit_rejected (Or.inr (Or.inl rfl))

theorem parseLoop_no_image : ∀ (fuel : Nat) (cs : List Char) (p : MessagePart),
    p ∈ parseLoop fuel cs → p.isImage = false := by
  intro fuel
  induction fuel with
  | zero => intro cs p hp; simp [parseLoop] at hp
  | succ fuel ih =>
    intro cs p hp
    rw [parseLoop] at hp
    rcases hf : parseFences cs with _ | ⟨⟨pre, t, i, r⟩⟩ <;> rw [hf] at hp
    · by_cases hcs : cs = []
      · rw [if_pos hcs] at hp
        simp at hp
      · rw [if_neg hcs] at hp
        rw [List.mem_singleton.mp hp]
        rfl
    · rcases List.mem_append.mp hp with h | h
      · by_cases hpre : pre = []
        · rw [if_pos hpre] at h
          simp at h
        · rw [if_neg hpre] at h
          rw [List.mem_singleton.mp h]
          rfl
      · rcases List.mem_cons.mp h with h | h
        · rw [h]; rfl
        · exact ih r p h

/-- A message respects the image invariant: if any of its parts is an image
part, the message consists of exactly one image part and nothing else. -/
def imageOk (m : Message) : Prop :=
  (∃ p ∈ m.parts, p.isImage = true) → ∃ u q, m.parts = [.image u q]

/-- C9.  The text/code parsing path never produces an image part, and every
message in any reachable conversation log that contains an image part is
exactly one image part and nothing else (the directive path appends the
single-image message; every other appended message is text/code only). -/
theorem image_part_exclusive :
    (∀ (t : String) (p : MessagePart), p ∈ parseResponse t → p.isImage = false) ∧
    (∀ (s : AppState), Reachable s → ∀ m ∈ s.messages, imageOk m) := by
  have hparse : ∀ (t : String) (p : MessagePart), p ∈ parseResponse t →
      p.isImage = false := by
    intro t p hp
    unfold parseResponse at hp
    by_cases hz : parseLoop (t.data.length + 1) t.data = []
    · rw [if_pos hz] at hp
      rw [List.mem_singleton.mp hp]
      rfl
    · rw [if_neg hz] at hp
      exact parseLoop_no_image _ _ p hp
  refine ⟨hparse, ?_⟩
  intro s hs
  induction hs with
  | init hasChat =>
    intro m hm
    cases hasChat
    · rw [List.mem_singleton.mp hm]
      rintro ⟨p, hp, hip⟩
      rw [List.mem_singleton.mp hp] at hip
      simp [MessagePart.isImage] at hip
    · simp [initState] at hm
  | step e hr ih =>
    rename_i s
    intro m hm
    cases e with
    | setInput t => exact ih m hm
    | speechEnd => exact ih m hm
    | toggleTts => exact ih m hm
    | toggleListen =>
      simp only [step, toggleListenStep] at hm
      by_cases hlst : s.isListening = true
      · rw [if_pos hlst] at hm; exact ih m hm
      · rw [if_neg hlst] at hm; exact ih m hm
    | submit =>
      simp only [step, submitStep] at hm
      by_cases hg : trimChars s.input.data = [] ∨ s.isLoading = true ∨
          s.hasChat = false
      · rw [if_pos hg] at hm; exact ih m hm
      · rw [if_neg hg] at hm
        simp only [runTtsEffect] at hm
        rcases List.mem_append.mp hm with h | h
        · exact ih m h
        · rw [List.mem_singleton.mp h]
          rintro ⟨p, hp, hip⟩
          rw [List.mem_singleton.mp hp] at hip
          simp [MessagePart.isImage] at hip
    | complete o =>
      simp only [step, completeStep] at hm
      by_cases hld : s.isLoading = false
      · rw [if_pos hld] at hm; exact ih m hm
      · rw [if_neg hld] at hm
        simp only [runTtsEffect] at hm
        rcases List.mem_append.mp hm with h | h
        · exact ih m h
        · rw [List.mem_singleton.mp h]
          unfold replyMessage
          split
          · rintro ⟨p, hp, hip⟩
            rw [List.mem_singleton.mp hp] at hip
            simp [MessagePart.isImage] at hip
          · split
            · split
              · exact fun _ => ⟨_, _, rfl⟩
              · rintro ⟨p, hp, hip⟩
                rw [List.mem_singleton.mp hp] at hip
                simp [MessagePart.isImage] at hip
            · rintro ⟨p, hp, hip⟩
              have := hparse _ p hp
              rw [this] at hip
              exact absurd hip (by simp)

/-- The state of the ambient console-output channel: the host's original
`console.log` or the interceptor `handleRunCode` installs
(src/index.tsx:114-130). -/
inductive ConsoleHook where
  | original
  | intercepted
  deriving DecidableEq, Repr

/-- The externally-given behavior of evaluating a snippet
(`new Function(code)()`): the lines printed before the outcome (already
serialized — the interceptor's serializer falls back to a fixed placeholder
and cannot itself throw), then either a return value (`none` models
`undefined`) or a thrown error message. -/
inductive RunOutcome where
  | value (v : Option String)
  | thrown (msg : String)
  deriving DecidableEq, Repr

/-- One snippet evaluation as the host runtime performs it. -/
structure SnippetRun where
  logs : List String
  outcome : RunOutcome
  deriving DecidableEq, Repr

/-- What `handleRunCode` leaves in the component state: captured output lines
and the optional error text. -/
structure RunResult where
  output : List String
  error : Option String
  deriving DecidableEq, Repr

/-- `handleRunCode` (src/index.tsx:110-142), its `try`/`catch`/`finally`
translated.  `h` is the console hook installed when the handler starts; the
source captures it (`const originalConsoleLog = console.log`), installs the
interceptor, evaluates, and the `finally` puts `h` back on both exits.  A
normal completion appends the `"=> "`-prefixed return line when the value is
not undefined; a throw is caught and stored as the error, the logs collected
before it preserved. -/
def handleRunCode (b : SnippetRun) (h : ConsoleHook) : RunResult × ConsoleHook :=
  match b.outcome with
  | .value none => (⟨b.logs, none⟩, h)
  | .value (some v) => (⟨b.logs ++ ["=> " ++ v], none⟩, h)
  | .thrown msg => (⟨b.logs, some msg⟩, h)

/-- C7.  The runner never propagates a failure (it is a total function into
`RunResult`): a throw is reported as the error result with all output lines
captured before the failure preserved beside it; a normal completion reports
no error; and the temporarily intercepted console channel is restored to its
entry state on every exit path, success or failure, so a second run after a
failing one starts from the original console, never from a leaked
interception. -/
theorem handleRunCode_safe (b b2 : SnippetRun) (h : ConsoleHook) :
    (handleRunCode b h).2 = h ∧
    (∀ msg, b.outcome = .thrown msg →
      (handleRunCode b h).1.error = some msg ∧
        (handleRunCode b h).1.output = b.logs) ∧
    (∀ v, b.outcome = .value v →
      (handleRunCode b h).1.error = none ∧
        (handleRunCode b h).1.output =
          (match v with
           | none => b.logs
           | some rv => b.logs ++ ["=> " ++ rv])) ∧
    handleRunCode b2 (handleRunCode b .original).2 = handleRunCode b2 .original := by
  refine ⟨?_, ?_, ?_, ?_⟩
  · rcases hb : b.outcome with v | msg
    · rcases v with _ | rv <;> simp [handleRunCode, hb]
    · simp [handleRunCode, hb]
  · intro msg hb
    simp [handleRunCode, hb]
  · intro v hb
    rcases v with _ | rv <;> simp [handleRunCode, hb]
  · rcases hb : b.outcome with v | msg
    · rcases v with _ | rv <;> simp [handleRunCode, hb]
    · simp [handleRunCode, hb]

end Axis
